import Mathlib

/-!
A shallow embedding of the Hashgraph chat tool core (Go client `main.go`,
the signalling server, and the README). Go byte strings (`string`, `[]byte`)
are modelled as `List Nat` with entries below 256; `time.Time` is modelled by
the byte sequence of its `String()` rendering, which is the only view of it
the hashing code reads. The external digest (`crypto/sha256`) is an abstract
function parameter and the external signature library (`crypto/ecdsa`) is an
abstract structure of operations carrying the sign-then-verify guarantee; the
byte-level signature encoding and decoding performed by the repository itself
is modelled concretely.
-/

/-- Auxiliary fuelled recursion for `natBytes`; the fuel argument bounds the
number of division steps (the number itself always suffices), keeping the
definition structurally recursive and kernel-computable. -/
def natBytesGo : Nat → Nat → List Nat
  | 0, _ => []
  | fuel + 1, n => if n = 0 then [] else natBytesGo fuel (n / 256) ++ [n % 256]

/-- Big-endian minimal byte rendering of a natural number, as produced by
`math/big.Int.Bytes`: no leading zero bytes, and the empty slice for zero. -/
def natBytes (n : Nat) : List Nat := natBytesGo n n

/-- `math/big.Int.SetBytes`: interpret a byte slice as a big-endian number. -/
def bytesToNat (l : List Nat) : Nat := l.foldl (fun acc b => acc * 256 + b) 0

/-- ASCII code of the lowercase hex digit of a value below 16, as emitted by
`encoding/hex`. -/
def hexDigit (n : Nat) : Nat := if n < 10 then 48 + n else 87 + n

/-- `encoding/hex.EncodeToString` on a byte slice, returned as the byte
sequence of the produced string: two lowercase hex digits per input byte. -/
def hexEncode : List Nat → List Nat
  | [] => []
  | b :: t => hexDigit (b / 16) :: hexDigit (b % 16) :: hexEncode t

/-- Value of one hex character (ASCII code); `encoding/hex` accepts decimal
digits and both letter cases and fails on anything else. -/
def unhexDigit (c : Nat) : Option Nat :=
  if 48 ≤ c ∧ c ≤ 57 then some (c - 48)
  else if 97 ≤ c ∧ c ≤ 102 then some (c - 87)
  else if 65 ≤ c ∧ c ≤ 70 then some (c - 55)
  else none

/-- `encoding/hex.DecodeString`: fails on odd length or a non-hex character,
otherwise pairs characters into bytes. -/
def hexDecode : List Nat → Option (List Nat)
  | [] => some []
  | [_] => none
  | c1 :: c2 :: t =>
    match unhexDigit c1, unhexDigit c2, hexDecode t with
    | some hi, some lo, some rest => some ((hi * 16 + lo) :: rest)
    | _, _, _ => none

/-- Association-list rendering of a Go map: lookup of a key. -/
def lookupA {α β : Type} [DecidableEq α] : List (α × β) → α → Option β
  | [], _ => none
  | (k, v) :: t, k' => if k = k' then some v else lookupA t k'

/-- Association-list rendering of a Go map: the assignment `m[k] = v`,
replacing the binding of `k` when present and appending it otherwise. -/
def setA {α β : Type} [DecidableEq α] : List (α × β) → α → β → List (α × β)
  | [], k, v => [(k, v)]
  | (k', v') :: t, k, v => if k' = k then (k, v) :: t else (k', v') :: setA t k v

/-- The `Event` structure of `main.go`. String-typed fields hold byte
sequences; `Timestamp` holds the bytes of the `time.Time.String()` rendering,
which is all the code ever reads of it; `RoundCreated` and `LamportTime` are
Go `int`s (no overflow is reachable here, so plain `Int`); `Famous *bool`
becomes `Option Bool`. -/
structure Event where
  Transactions : List (List Nat)
  SelfParent : List Nat
  OtherParent : List Nat
  Creator : List Nat
  Timestamp : List Nat
  Signature : List Nat
  Hash : List Nat
  RoundCreated : Int
  Famous : Option Bool
  Witness : Bool
  LamportTime : Int
deriving DecidableEq

/-- Interface of the external `crypto/ecdsa` library as the repository uses
it. `sign` receives the nonce drawn from `rand.Reader` as an explicit
argument and may fail (Go returns an error when the randomness source is
unavailable); `verify` is total. `sign_correct` is the library's guarantee
that a signature just produced verifies under the matching public key, for
every nonce. The signature components are the numbers `r` and `s`. -/
structure EcdsaScheme where
  PrivKey : Type
  PubKey : Type
  pubOf : PrivKey → PubKey
  sign : PrivKey → List Nat → Nat → Option (Nat × Nat)
  verify : PubKey → List Nat → Nat → Nat → Bool
  sign_correct : ∀ k d n r s, sign k d n = some (r, s) → verify (pubOf k) d r s = true

/-- The `Hashgraph` structure of `main.go`: events indexed by hash, round
buckets, and the node's own keypair. The `sync.RWMutex` only serialises
access and has no sequential meaning. -/
structure Hashgraph (E : EcdsaScheme) where
  Events : List (List Nat × Event)
  Rounds : List (Int × List Event)
  privateKey : E.PrivKey
  publicKey : E.PubKey

/-- `NewHashgraph` of `main.go`: empty maps, the given keypair. -/
def NewHashgraph (E : EcdsaScheme) (priv : E.PrivKey) (pub : E.PubKey) : Hashgraph E :=
  { Events := [], Rounds := [], privateKey := priv, publicKey := pub }

/-- The concatenation of a list of byte slices, as produced by feeding them
one after another to a running `sha256` hash. -/
def concatBytes (ts : List (List Nat)) : List Nat :=
  List.foldl (fun b tx => b ++ tx) [] ts

/-- The exact byte sequence `hashEvent` feeds to `sha256`: creator, then
selfParent, then otherParent, then the timestamp rendering, then the
transactions in order. -/
def hashInput (e : Event) : List Nat :=
  e.Creator ++ e.SelfParent ++ e.OtherParent ++ e.Timestamp ++ concatBytes e.Transactions

/-- `hashEvent` of `main.go`: a fresh `sha256.New()` receives the writes
`Creator`, `SelfParent`, `OtherParent`, `Timestamp.String()` and each
transaction in order; the digest of the accumulated stream is hex-encoded.
The abstract digest `sha` stands for `crypto/sha256`. -/
def hashEvent (sha : List Nat → List Nat) (e : Event) : List Nat :=
  let buf := ([] : List Nat) ++ e.Creator
  let buf := buf ++ e.SelfParent
  let buf := buf ++ e.OtherParent
  let buf := buf ++ e.Timestamp
  let buf := List.foldl (fun b tx => b ++ tx) buf e.Transactions
  hexEncode (sha buf)

/-- `signEvent` of `main.go`: digest the bytes of the `Hash` field, sign the
digest, and store the hex encoding of `append(r.Bytes(), s.Bytes()...)` in
the `Signature` field. Fails exactly when `ecdsa.Sign` fails. -/
def signEvent (E : EcdsaScheme) (sha : List Nat → List Nat) (e : Event)
    (priv : E.PrivKey) (nonce : Nat) : Option Event :=
  match E.sign priv (sha e.Hash) nonce with
  | none => none
  | some (r, s) => some { e with Signature := hexEncode (natBytes r ++ natBytes s) }

/-- `verifyEventSignature` of `main.go`: digest the bytes of the `Hash`
field, hex-decode the `Signature` field (false on failure), split the
decoded bytes at half their length into `r` and `s` via `SetBytes`, and call
`ecdsa.Verify`. -/
def verifyEventSignature (E : EcdsaScheme) (sha : List Nat → List Nat)
    (e : Event) (pub : E.PubKey) : Bool :=
  match hexDecode e.Signature with
  | none => false
  | some sig =>
      E.verify pub (sha e.Hash)
        (bytesToNat (List.take (sig.length / 2) sig))
        (bytesToNat (List.drop (sig.length / 2) sig))

/-- `Hashgraph.AddEvent` of `main.go`: recompute the hash from the event's
fields and overwrite the `Hash` field, sign the event with the store's own
private key (propagating a signing failure, in which case the store is left
unchanged), then index the event by its new hash and append it to the bucket
of its (caller-supplied, unexamined) `RoundCreated`. Returns the updated
store and the stored event. -/
def AddEvent (E : EcdsaScheme) (sha : List Nat → List Nat) (hg : Hashgraph E)
    (event : Event) (nonce : Nat) : Option (Hashgraph E × Event) :=
  let event1 := { event with Hash := hashEvent sha event }
  match signEvent E sha event1 hg.privateKey nonce with
  | none => none
  | some event2 =>
      some ({ hg with
                Events := setA hg.Events event2.Hash event2,
                Rounds := setA hg.Rounds event2.RoundCreated
                  ((lookupA hg.Rounds event2.RoundCreated).getD [] ++ [event2]) },
            event2)

/-- The `case "event"` branch of the client's read loop in `main.go`: the
incoming event's signature is verified against the local `publicKey`
variable (set in `main` to the node's own public key, the same key whose
private half the local `Hashgraph` signs with); only on success is
`AddEvent` called. On verification failure the goroutine logs and returns,
leaving the store unchanged. -/
def handleEventMessage (E : EcdsaScheme) (sha : List Nat → List Nat)
    (hg : Hashgraph E) (ev : Event) (nonce : Nat) : Option (Hashgraph E × Event) :=
  if verifyEventSignature E sha ev hg.publicKey then AddEvent E sha hg ev nonce else none

/-- Modelled from the spec: the server package `hashgraphserver/server`
(file `hashgraph.go`, absent from the sources; only its caller, the
signalling server, is present) can reject an insert; these are the outcome
kinds the spec names in sections 4.2 and 7. The relay handler only tests the
returned error for being non-nil and logs it, so nothing beyond the kinds'
identity is needed. -/
inductive InsertError
  | InvalidSignature
  | HashMismatch
  | MissingParent
  | DuplicateEvent
  | SigningFailed
deriving DecidableEq

/-- The `case "event"` branch of the server's `signalHandler`: after the
`server.AddEvent` call, whose error `addErr` is only logged, the message is
forwarded to its client-chosen `targetNode` — unless the target is the
receiving connection's own `nodeID` (handled locally) or is not a registered
session (logged). Returns the session the message is forwarded to, if any;
`sessions` is the set of registered session ids. -/
def signalEventCase (sessions : List (List Nat)) (nodeID targetNode : List Nat)
    (addErr : Option InsertError) : Option (List Nat) :=
  if targetNode = nodeID then none
  else if targetNode ∈ sessions then some targetNode
  else none

/-- Identity stand-in instantiating the abstract digest in concrete
computations; every fact evaluated with it holds for an arbitrary digest
whenever the digest inputs coincide. -/
abbrev digestId : List Nat → List Nat := fun l => l

/-- A small concrete instance of the `crypto/ecdsa` interface used to
evaluate the repository's signing pipeline on explicit inputs: keys are
numbers, a signature (r, s) for digest d under key k is valid when r is
nonzero and s = r + k + SetBytes(d), and signing with nonce n produces
(n + 1, n + 1 + k + SetBytes(d)). -/
abbrev toyScheme : EcdsaScheme where
  PrivKey := Nat
  PubKey := Nat
  pubOf := fun k => k
  sign := fun k d n => some (n + 1, n + 1 + k + bytesToNat d)
  verify := fun pub d r s => decide (0 < r ∧ s = r + pub + bytesToNat d)
  sign_correct := by
    intro k d n r s h
    simp only [Option.some.injEq, Prod.mk.injEq] at h
    obtain ⟨h1, h2⟩ := h
    subst h1; subst h2
    simp

/-- A degenerate instance of the `crypto/ecdsa` interface whose only valid
signature is the fixed pair (r, s) = (300, 2); it satisfies the library's
sign-then-verify guarantee and isolates the repository's byte-level
signature encoding: 300 encodes to two bytes and 2 to one. -/
abbrev fixedSigScheme : EcdsaScheme where
  PrivKey := Nat
  PubKey := Nat
  pubOf := fun k => k
  sign := fun _ _ _ => some (300, 2)
  verify := fun _ _ r s => decide (r = 300 ∧ s = 2)
  sign_correct := by
    intro k d n r s h
    simp only [Option.some.injEq, Prod.mk.injEq] at h
    obtain ⟨h1, h2⟩ := h
    subst h1; subst h2
    simp

/-- A local node's store as `main` builds it: the keypair is generated once
and `publicKey` is exactly the public half of `privateKey`. -/
abbrev hgLocal : Hashgraph toyScheme := NewHashgraph toyScheme (2 : Nat) (2 : Nat)

/-- A root event with every field empty or zero, the base of the concrete
test events. -/
def baseEvent : Event :=
  { Transactions := [], SelfParent := [], OtherParent := [], Creator := [],
    Timestamp := [], Signature := [], Hash := [], RoundCreated := 0,
    Famous := none, Witness := false, LamportTime := 0 }

/-- An event carrying a hash of one byte 7 and a signature that the toy
scheme accepts under public key 2 (the local node's key): the pair
(r, s) = (1, 10) satisfies 10 = 1 + 2 + SetBytes([7]). -/
def evSigned : Event :=
  { baseEvent with
    Creator := [42], Hash := [7],
    Signature := hexEncode (natBytes 1 ++ natBytes 10) }

/-- `evSigned` with only its `RoundCreated` field changed. -/
def evMutRound : Event := { evSigned with RoundCreated := 1 }

/-- `evSigned` with only its transaction list changed, keeping the original
`Hash` and `Signature` fields. -/
def evMutTx : Event := { evSigned with Transactions := [[5]] }

/-- `baseEvent` with only its creator changed. -/
def evCreator1 : Event := { baseEvent with Creator := [1] }

/-- An event whose signature field is empty: it hex-decodes to the empty
byte slice, so the recovered r is 0 and the toy scheme rejects it. -/
def evBadSig : Event := { baseEvent with Signature := [] }

/-- An event whose supplied `Hash` field (bytes 100, 101) differs from the
digest recomputed from its (empty) content fields. -/
def evHashClaim : Event := { baseEvent with Hash := [100, 101] }

/-- A parent event carrying round number 5. -/
def parentRound5 : Event := { baseEvent with Creator := [3], RoundCreated := 5 }

/-- A child naming `parentRound5`'s stored hash as its selfParent while
carrying round number 0. -/
def childRound0 : Event :=
  { baseEvent with
    Creator := [4],
    SelfParent := hexEncode (digestId (hashInput parentRound5)), RoundCreated := 0 }

/-- An event whose selfParent reference names a hash absent from any store
built below. -/
def evDangling : Event := { baseEvent with SelfParent := [9, 9] }

/-- An event with the hash field set, input to the fixed-signature signing
pipeline. -/
def evHash7 : Event := { baseEvent with Hash := [7] }

/-- `evHash7` as `signEvent` leaves it under `fixedSigScheme`: the signature
field holds hex(append(Bytes(300), Bytes(2))) = hex([1, 44, 2]). -/
def evHash7Sig : Event :=
  { evHash7 with Signature := hexEncode (natBytes 300 ++ natBytes 2) }

/-- An event with two one-byte transactions. -/
def evC4a : Event := { baseEvent with Creator := [8], Transactions := [[1], [2]] }

/-- An event agreeing with `evC4a` on creator, parents, timestamp and
concatenated transaction bytes (one two-byte transaction) while differing
in its transaction grouping and in fields outside the digest. -/
def evC4b : Event :=
  { evC4a with
    Transactions := [[1, 2]], RoundCreated := 9,
    Famous := some true, Hash := [1, 2, 3] }

/-- The store invariant of C9: every key of the Events index equals the
stored event's own Hash field, which equals the digest recomputed from that
event's fields. -/
def StoreHashInv (E : EcdsaScheme) (sha : List Nat → List Nat) (hg : Hashgraph E) : Prop :=
  ∀ k ev, lookupA hg.Events k = some ev → k = ev.Hash ∧ ev.Hash = hashEvent sha ev

/-- The stores reachable in a run: a fresh `NewHashgraph` followed by any
sequence of successful `AddEvent` calls. -/
inductive Reachable (E : EcdsaScheme) (sha : List Nat → List Nat) : Hashgraph E → Prop
  | init (priv : E.PrivKey) (pub : E.PubKey) : Reachable E sha (NewHashgraph E priv pub)
  | step (hg : Hashgraph E) (e : Event) (n : Nat) (hg' : Hashgraph E) (e' : Event) :
      Reachable E sha hg → AddEvent E sha hg e n = some (hg', e') → Reachable E sha hg'

/-- A change of exactly one field of an event to a different value. -/
def SingleFieldMutation (e e' : Event) : Prop :=
  (∃ v, e' = { e with Transactions := v } ∧ v ≠ e.Transactions) ∨
  (∃ v, e' = { e with SelfParent := v } ∧ v ≠ e.SelfParent) ∨
  (∃ v, e' = { e with OtherParent := v } ∧ v ≠ e.OtherParent) ∨
  (∃ v, e' = { e with Creator := v } ∧ v ≠ e.Creator) ∨
  (∃ v, e' = { e with Timestamp := v } ∧ v ≠ e.Timestamp) ∨
  (∃ v, e' = { e with Signature := v } ∧ v ≠ e.Signature) ∨
  (∃ v, e' = { e with Hash := v } ∧ v ≠ e.Hash) ∨
  (∃ v, e' = { e with RoundCreated := v } ∧ v ≠ e.RoundCreated) ∨
  (∃ v, e' = { e with Famous := v } ∧ v ≠ e.Famous) ∨
  (∃ v, e' = { e with Witness := v } ∧ v ≠ e.Witness) ∨
  (∃ v, e' = { e with LamportTime := v } ∧ v ≠ e.LamportTime)

/-- A change of exactly one of the fields the digest covers: one of the four
digested byte strings changed to a different value, or the transaction list
changed so that the concatenated transaction bytes change. -/
def DigestFieldMutation (e e' : Event) : Prop :=
  (∃ v, e' = { e with Creator := v } ∧ v ≠ e.Creator) ∨
  (∃ v, e' = { e with SelfParent := v } ∧ v ≠ e.SelfParent) ∨
  (∃ v, e' = { e with OtherParent := v } ∧ v ≠ e.OtherParent) ∨
  (∃ v, e' = { e with Timestamp := v } ∧ v ≠ e.Timestamp) ∨
  (∃ v, e' = { e with Transactions := v } ∧ concatBytes v ≠ concatBytes e.Transactions)

/-- Streaming writes to a running digest amount to hashing the concatenation:
folding append over the transactions extends the buffer by their
concatenation. -/
theorem foldl_append_eq (ts : List (List Nat)) (buf : List Nat) :
    List.foldl (fun b tx => b ++ tx) buf ts = buf ++ concatBytes ts := by
  induction ts generalizing buf with
  | nil => simp [concatBytes]
  | cons t ts ih =>
    show List.foldl _ (buf ++ t) ts = buf ++ concatBytes (t :: ts)
    rw [ih]
    have h : concatBytes (t :: ts) = t ++ concatBytes ts := by
      show List.foldl _ ([] ++ t) ts = _
      rw [List.nil_append, ih]
    rw [h, List.append_assoc]

/-- `hashEvent` digests exactly the byte sequence `hashInput`: creator,
selfParent, otherParent, timestamp rendering, concatenated transactions, in
that order. -/
theorem hashEvent_eq (sha : List Nat → List Nat) (e : Event) :
    hashEvent sha e = hexEncode (sha (hashInput e)) := by
  simp only [hashEvent, hashInput, foldl_append_eq, List.nil_append, List.append_assoc]

/-- Left cancellation of list append. -/
theorem append_cancel_l {a b c : List Nat} (h : a ++ b = a ++ c) : b = c :=
  (List.append_inj h rfl).2

/-- Right cancellation of list append. -/
theorem append_cancel_r {a b c : List Nat} (h : b ++ a = c ++ a) : b = c := by
  have hl : b.length = c.length := by
    have h2 := congrArg List.length h
    simp only [List.length_append] at h2
    omega
  exact (List.append_inj h hl).1

/-- Looking a key up after a map assignment: the assigned key maps to the
new value, every other key is unaffected. -/
theorem lookupA_setA {α β : Type} [DecidableEq α] (l : List (α × β)) (k k' : α) (v : β) :
    lookupA (setA l k v) k' = if k = k' then some v else lookupA l k' := by
  induction l with
  | nil => simp [setA, lookupA]
  | cons hd t ih =>
    obtain ⟨a, b⟩ := hd
    by_cases hak : a = k
    · subst hak
      simp only [setA, if_pos rfl, lookupA]
      by_cases h : a = k'
      · simp [h]
      · simp [h]
    · simp only [setA, if_neg hak, lookupA, ih]
      by_cases h1 : a = k' <;> by_cases h2 : k = k'
      · exact absurd (h1.trans h2.symm) hak
      · simp [h1, h2]
      · simp [h1, h2]
      · simp [h1, h2]


/-- What one successful `AddEvent` does: the stored event's hash is the
recomputed digest (the caller-supplied `Hash` and `Signature` are
discarded), the key invariant is preserved, the event is indexed under its
new hash, and the stored signature was produced by the store's own private
key over the new hash. -/
theorem addEvent_inv (E : EcdsaScheme) (sha : List Nat → List Nat)
    (hg : Hashgraph E) (e : Event) (n : Nat) (hg' : Hashgraph E) (e' : Event)
    (hAdd : AddEvent E sha hg e n = some (hg', e')) :
    e'.Hash = hashEvent sha e ∧ hashEvent sha e' = hashEvent sha e ∧
    (StoreHashInv E sha hg → StoreHashInv E sha hg') ∧
    lookupA hg'.Events e'.Hash = some e' ∧
    (∃ r s, E.sign hg.privateKey (sha (hashEvent sha e)) n = some (r, s) ∧
       e' = { e with
              Hash := hashEvent sha e,
              Signature := hexEncode (natBytes r ++ natBytes s) }) := by
  cases hsig : E.sign hg.privateKey (sha (hashEvent sha e)) n with
  | none => simp [AddEvent, signEvent, hsig] at hAdd
  | some rs =>
    obtain ⟨r, s⟩ := rs
    simp only [AddEvent, signEvent, hsig] at hAdd
    simp only [Option.some.injEq, Prod.mk.injEq] at hAdd
    obtain ⟨h1, h2⟩ := hAdd
    subst h1
    subst h2
    refine ⟨rfl, rfl, ?_, ?_, r, s, rfl, rfl⟩
    · intro hinv k ev hlook
      simp only at hlook
      rw [lookupA_setA] at hlook
      by_cases hk : ({ e with
          Hash := hashEvent sha e,
          Signature := hexEncode (natBytes r ++ natBytes s) } : Event).Hash = k
      · rw [if_pos hk] at hlook
        obtain rfl : _ = ev := Option.some.inj hlook
        exact ⟨hk.symm, rfl⟩
      · rw [if_neg hk] at hlook
        exact hinv k ev hlook
    · simp only
      rw [lookupA_setA]
      rw [if_pos rfl]

/-- C4: the content hash is the digest of exactly the fields (creator,
selfParent, otherParent, timestamp, concatenated transaction bytes) in that
fixed order, so two events with equal values of those fields always hash
identically. -/
theorem c4_hash_fixed_field_order (sha : List Nat → List Nat) (e1 e2 : Event)
    (h1 : e1.Creator = e2.Creator) (h2 : e1.SelfParent = e2.SelfParent)
    (h3 : e1.OtherParent = e2.OtherParent) (h4 : e1.Timestamp = e2.Timestamp)
    (h5 : concatBytes e1.Transactions = concatBytes e2.Transactions) :
    hashEvent sha e1
      = hexEncode (sha (e1.Creator ++ e1.SelfParent ++ e1.OtherParent
          ++ e1.Timestamp ++ concatBytes e1.Transactions)) ∧
    hashEvent sha e1 = hashEvent sha e2 := by
  have k1 := hashEvent_eq sha e1
  have k2 := hashEvent_eq sha e2
  refine ⟨k1, ?_⟩
  rw [k1, k2]
  unfold hashInput
  rw [h1, h2, h3, h4, h5]

/-- Witness for C4 at concrete events: `evC4b` regroups `evC4a`'s
transactions and changes non-digested fields, and the two hash
identically. -/
theorem c4_hash_fixed_field_order_witness :
    hashEvent digestId evC4a
      = hexEncode (digestId (evC4a.Creator ++ evC4a.SelfParent ++ evC4a.OtherParent
          ++ evC4a.Timestamp ++ concatBytes evC4a.Transactions)) ∧
    hashEvent digestId evC4a = hashEvent digestId evC4b :=
  c4_hash_fixed_field_order digestId evC4a evC4b (by decide) (by decide) (by decide)
    (by decide) (by decide)

/-- C9: every reachable store satisfies the key-equals-hash invariant, and
each successful `AddEvent` preserves it by discarding the caller-supplied
`Hash` and `Signature`, overwriting the hash with the recomputed digest,
re-signing with the store's own private key, and indexing the event under
the new hash. -/
theorem c9_events_key_hash_invariant (E : EcdsaScheme) (sha : List Nat → List Nat) :
    (∀ hg, Reachable E sha hg → StoreHashInv E sha hg) ∧
    (∀ hg e n hg' e', AddEvent E sha hg e n = some (hg', e') →
       e'.Hash = hashEvent sha e ∧ hashEvent sha e' = hashEvent sha e ∧
       (StoreHashInv E sha hg → StoreHashInv E sha hg') ∧
       lookupA hg'.Events e'.Hash = some e' ∧
       (∃ r s, E.sign hg.privateKey (sha (hashEvent sha e)) n = some (r, s) ∧
          e' = { e with
                 Hash := hashEvent sha e,
                 Signature := hexEncode (natBytes r ++ natBytes s) })) := by
  constructor
  · intro hg hr
    induction hr with
    | init priv pub =>
      intro k ev hlook
      simp [NewHashgraph, lookupA] at hlook
    | step hg e n hg' e' hr hAdd ih =>
      exact (addEvent_inv E sha hg e n hg' e' hAdd).2.2.1 ih
  · intro hg e n hg' e' hAdd
    exact addEvent_inv E sha hg e n hg' e' hAdd

/-- Witness for C9: the invariant holds of a concrete freshly created
store. -/
theorem c9_events_key_hash_invariant_witness :
    StoreHashInv toyScheme digestId (NewHashgraph toyScheme (2 : Nat) (2 : Nat)) :=
  (c9_events_key_hash_invariant toyScheme digestId).1 _ (Reachable.init 2 2)

/-- C1 as stated is false: the client's event handler can successfully
insert an event whose signature does not verify under the public key of the
event's creator, because the handler checks the receiving node's own key and
never consults any creator key. Here the creator's key is 1 while the
receiving node holds keypair 2, and the incoming event is signed for key 2. -/
theorem c1_creator_key_counterexample :
    ¬ (∀ (E : EcdsaScheme) (sha : List Nat → List Nat) (keyOf : List Nat → E.PubKey)
         (hg : Hashgraph E) (ev : Event) (n : Nat) (res : Hashgraph E × Event),
         handleEventMessage E sha hg ev n = some res →
         verifyEventSignature E sha ev (keyOf ev.Creator) = true) := by
  intro h
  have hs : (handleEventMessage toyScheme digestId hgLocal evSigned 0).isSome = true := by
    decide
  cases hres : handleEventMessage toyScheme digestId hgLocal evSigned 0 with
  | none => rw [hres] at hs; simp at hs
  | some res =>
    have hv := h toyScheme digestId (fun _ => (1 : Nat)) hgLocal evSigned 0 res hres
    have hf : verifyEventSignature toyScheme digestId evSigned
        ((fun _ => (1 : Nat)) evSigned.Creator) = false := by decide
    rw [hv] at hf
    exact Bool.noConfusion hf

/-- C1 amended: in the client's event handler the verification that gates
insertion is against the receiving node's own public key; successful
insertion implies the event verified under `hg.publicKey`, and an event
failing that verification is never inserted. -/
theorem c1_local_key_precondition (E : EcdsaScheme) (sha : List Nat → List Nat)
    (hg : Hashgraph E) (ev : Event) (n : Nat) :
    (∀ res, handleEventMessage E sha hg ev n = some res →
       verifyEventSignature E sha ev hg.publicKey = true) ∧
    (verifyEventSignature E sha ev hg.publicKey = false →
       handleEventMessage E sha hg ev n = none) := by
  constructor
  · intro res h
    by_contra hv
    have hfalse : verifyEventSignature E sha ev hg.publicKey = false := by
      cases hb : verifyEventSignature E sha ev hg.publicKey
      · rfl
      · exact absurd hb hv
    unfold handleEventMessage at h
    rw [hfalse] at h
    simp at h
  · intro hv
    unfold handleEventMessage
    rw [hv]
    simp

/-- Witness for the amended C1: a concrete event with an unverifiable
signature is not inserted by the handler. -/
theorem c1_local_key_precondition_witness :
    verifyEventSignature toyScheme digestId evBadSig hgLocal.publicKey = false ∧
    handleEventMessage toyScheme digestId hgLocal evBadSig 0 = none :=
  ⟨by decide,
   (c1_local_key_precondition toyScheme digestId hgLocal evBadSig 0).2 (by decide)⟩

/-- C2 evaluated at a failing input: `AddEvent` performs no hash comparison
and no signature verification; an event whose supplied hash differs from
the recomputed digest is inserted with a success result and the store
gains the event. -/
theorem c2_hash_mismatch_inserted_anyway :
    hashEvent digestId evHashClaim ≠ evHashClaim.Hash ∧
    (AddEvent toyScheme digestId hgLocal evHashClaim 0).map
      (fun p => ((lookupA p.1.Events p.2.Hash).isSome, p.1.Events.length))
      = some (true, 1) := by
  decide

/-- C3 evaluated at a failing input: inserting the same event a second time
into a store already containing its hash succeeds again (no DuplicateEvent
return exists) and changes the store: the round bucket holds the event
twice after the second insert, once after the first. -/
theorem c3_duplicate_insert_changes_store :
    (AddEvent toyScheme digestId hgLocal baseEvent 0).map
      (fun p => ((lookupA p.1.Rounds baseEvent.RoundCreated).getD []).length)
      = some 1 ∧
    ((AddEvent toyScheme digestId hgLocal baseEvent 0).bind
      (fun p => (AddEvent toyScheme digestId p.1 p.2 0).map
        (fun q => (((lookupA q.1.Rounds baseEvent.RoundCreated).getD []).length,
                   (lookupA p.1.Events p.2.Hash).isSome))))
      = some (2, true) := by
  decide

/-- C5 as stated is false on two counts: changing only the `RoundCreated`
field is a single-field mutation that leaves the recomputed hash unchanged
for every digest, and a tampered event that alters the transaction list
while keeping the original `Hash` and `Signature` fields still passes
signature verification. -/
theorem c5_single_field_counterexample :
    (¬ ∀ (sha : List Nat → List Nat) (e e' : Event), SingleFieldMutation e e' →
        hashEvent sha e' ≠ hashEvent sha e) ∧
    SingleFieldMutation evSigned evMutTx ∧
    verifyEventSignature toyScheme digestId evMutTx (toyScheme.pubOf 2) = true := by
  refine ⟨?_, ?_, by decide⟩
  · intro h
    exact h digestId evSigned evMutRound
      (Or.inr (Or.inr (Or.inr (Or.inr (Or.inr (Or.inr (Or.inr (Or.inl
        ⟨1, rfl, by decide⟩)))))))) rfl
  · exact Or.inl ⟨[[5]], rfl, by decide⟩

/-- C5 amended: a mutation of one of the digested fields (creator,
selfParent, otherParent, timestamp, or the transaction list with changed
concatenation) changes the digest input, hence the hash whenever the digest
pipeline is collision-free on the two inputs; and signature verification,
reading only the `Hash` and `Signature` fields, gives the same verdict on
the mutated event as on the original. -/
theorem c5_digest_field_mutation (E : EcdsaScheme) (sha : List Nat → List Nat)
    (pub : E.PubKey) (e e' : Event)
    (hcf : hashEvent sha e' = hashEvent sha e → hashInput e' = hashInput e)
    (hmut : DigestFieldMutation e e') :
    hashEvent sha e' ≠ hashEvent sha e ∧
    verifyEventSignature E sha e' pub = verifyEventSignature E sha e pub := by
  constructor
  · intro heq
    have hin := hcf heq
    rcases hmut with ⟨v, rfl, hv⟩ | ⟨v, rfl, hv⟩ | ⟨v, rfl, hv⟩ | ⟨v, rfl, hv⟩ |
      ⟨v, rfl, hv⟩ <;>
      simp only [hashInput] at hin
    · exact hv (append_cancel_r (append_cancel_r (append_cancel_r (append_cancel_r hin))))
    · exact hv (append_cancel_l (append_cancel_r (append_cancel_r (append_cancel_r hin))))
    · exact hv (append_cancel_l (append_cancel_r (append_cancel_r hin)))
    · exact hv (append_cancel_l (append_cancel_r hin))
    · exact hv (append_cancel_l hin)
  · rcases hmut with ⟨v, rfl, hv⟩ | ⟨v, rfl, hv⟩ | ⟨v, rfl, hv⟩ | ⟨v, rfl, hv⟩ |
      ⟨v, rfl, hv⟩ <;> rfl

/-- Witness for the amended C5 at a concrete creator mutation. -/
theorem c5_digest_field_mutation_witness :
    hashEvent digestId evCreator1 ≠ hashEvent digestId baseEvent ∧
    verifyEventSignature toyScheme digestId evCreator1 (2 : Nat)
      = verifyEventSignature toyScheme digestId baseEvent (2 : Nat) :=
  c5_digest_field_mutation toyScheme digestId 2 baseEvent evCreator1 (by decide)
    (Or.inl ⟨[1], rfl, by decide⟩)

/-- C6 evaluated at a failing input: rounds are never computed or checked;
after inserting a parent carrying round 5 and a child referencing the
parent's stored hash while carrying round 0, both are in the store, the
child's selfParent resolves, and the child's round is below its parent's. -/
theorem c6_round_invariant_violated :
    ((AddEvent toyScheme digestId hgLocal parentRound5 0).bind
      (fun a => (AddEvent toyScheme digestId a.1 childRound0 0).map
        (fun b =>
          ((lookupA b.1.Events b.2.Hash).isSome,
           match lookupA b.1.Events b.2.SelfParent with
           | some par => decide (b.2.RoundCreated < par.RoundCreated)
           | none => false))))
      = some (true, true) := by
  decide

/-- C7 evaluated at a failing input: an event whose selfParent reference is
set but names a hash absent from the store is inserted immediately with a
success result; no MissingParent outcome and no replay buffer exist. -/
theorem c7_missing_parent_inserted :
    evDangling.SelfParent ≠ [] ∧
    lookupA hgLocal.Events evDangling.SelfParent = none ∧
    (AddEvent toyScheme digestId hgLocal evDangling 0).map
      (fun p => (lookupA p.1.Events p.2.Hash).isSome) = some true := by
  decide

/-- C8 as stated is false: the relay forwards an event message to its
client-chosen target even when the insert was rejected — here with an
InvalidSignature outcome the message still goes to registered session 11. -/
theorem c8_reject_forward_counterexample :
    ¬ (∀ (sessions : List (List Nat)) (nodeID targetNode : List Nat)
         (addErr : Option InsertError),
         (addErr = some InsertError.InvalidSignature ∨
          addErr = some InsertError.HashMismatch) →
         signalEventCase sessions nodeID targetNode addErr = none) := by
  intro h
  have hc := h [[10], [11]] [10] [11] (some InsertError.InvalidSignature) (Or.inl rfl)
  exact absurd hc (by decide)

/-- C8 amended: the relay's forwarding decision is independent of the
insert outcome — after the insert attempt (whose error is only logged) the
message is forwarded to the client-chosen target exactly when the target is
a registered session other than the receiving node. -/
theorem c8_forward_independent_of_insert (sessions : List (List Nat))
    (nodeID targetNode : List Nat) (addErr1 addErr2 : Option InsertError) :
    signalEventCase sessions nodeID targetNode addErr1
      = signalEventCase sessions nodeID targetNode addErr2 ∧
    (signalEventCase sessions nodeID targetNode addErr1 = some targetNode ↔
      (targetNode ≠ nodeID ∧ targetNode ∈ sessions)) := by
  refine ⟨rfl, ?_⟩
  unfold signalEventCase
  by_cases h1 : targetNode = nodeID
  · simp [h1]
  · by_cases h2 : targetNode ∈ sessions
    · simp [h1, h2]
    · simp [h1, h2]

/-- Witness for the amended C8 at a concrete session table. -/
theorem c8_forward_independent_of_insert_witness :
    signalEventCase [[10], [11]] [10] [11] (some InsertError.HashMismatch)
      = signalEventCase [[10], [11]] [10] [11] none ∧
    (signalEventCase [[10], [11]] [10] [11] (some InsertError.HashMismatch)
        = some [11] ↔ (([11] : List Nat) ≠ [10] ∧ ([11] : List Nat) ∈ [[10], [11]])) :=
  c8_forward_independent_of_insert [[10], [11]] [10] [11]
    (some InsertError.HashMismatch) none

/-- C10 evaluated at a failing input: signing with (r, s) = (300, 2) stores
hex([1, 44, 2]) — the concatenation of the minimal big-endian bytes of r
and s — and verification splits those three bytes at half their length,
recovering (1, 11266) instead of (300, 2), so the signature just produced
fails to verify under the matching public key. -/
theorem c10_sign_split_roundtrip_fails :
    signEvent fixedSigScheme digestId evHash7 (5 : Nat) 0 = some evHash7Sig ∧
    natBytes 300 ++ natBytes 2 = [1, 44, 2] ∧
    hexDecode evHash7Sig.Signature = some [1, 44, 2] ∧
    bytesToNat (List.take ([1, 44, 2].length / 2) [1, 44, 2]) = 1 ∧
    bytesToNat (List.drop ([1, 44, 2].length / 2) [1, 44, 2]) = 11266 ∧
    verifyEventSignature fixedSigScheme digestId evHash7Sig
      (fixedSigScheme.pubOf 5) = false := by
  decide
